import Mathlib

/-!
Verification development for the Ceres Solver trust-region core.

The development shallowly embeds the code under scrutiny:

* `preconditioner.cc` (the one implementation file in the repository
  snapshot): `Preconditioner::PreconditionerForZeroEBlocks` and
  `SparseMatrixPreconditionerWrapper`.
* The trust-region minimizer loop, the configuration validation, the Schur
  complement solvers and the `DENSE_SVD` covariance computation are not part
  of the snapshot (only their documentation and tests are), so they are
  modelled from the specification, with exact rational arithmetic in place
  of IEEE doubles.  Each such definition carries a doc comment starting
  with `Modelled from the spec:`.
-/

set_option autoImplicit false

namespace Ceres

/-! ### Preconditioner types (from `include/ceres/types.h`, as listed in the
solver documentation) -/

/-- The preconditioners available to the iterative linear solvers, as
enumerated in the solver documentation. -/
inductive PreconditionerType
  | IDENTITY
  | JACOBI
  | SCHUR_JACOBI
  | CLUSTER_JACOBI
  | CLUSTER_TRIDIAGONAL
  | SCHUR_POWER_SERIES_EXPANSION
  | SUBSET
  deriving DecidableEq, Repr

open PreconditionerType

/-- Embedding of `Preconditioner::PreconditionerForZeroEBlocks` from
`preconditioner.cc`: when a problem has no e-blocks the Schur-reduced
preconditioners degrade to plain `JACOBI`; everything else passes through. -/
def preconditionerForZeroEBlocks (preconditioner_type : PreconditionerType) :
    PreconditionerType :=
  if preconditioner_type = SCHUR_JACOBI ∨
     preconditioner_type = CLUSTER_JACOBI ∨
     preconditioner_type = CLUSTER_TRIDIAGONAL then
    JACOBI
  else
    preconditioner_type

/-! ### SparseMatrixPreconditionerWrapper (from `preconditioner.cc`) -/

/-- Embedding of `SparseMatrixPreconditionerWrapper`: a preconditioner that
wraps a fixed sparse matrix; its state is the wrapped matrix (the thread
count and context in `options_` do not affect the computed values). -/
structure SparseMatrixPreconditionerWrapper (m n : ℕ) where
  matrix : Matrix (Fin m) (Fin n) ℚ

/-- Embedding of `SparseMatrixPreconditionerWrapper::UpdateImpl`: the body is
`return true;` — the arguments `A` and `D` are ignored and the wrapper state
is untouched.  Returns the success flag together with the (unchanged)
wrapper. -/
def SparseMatrixPreconditionerWrapper.updateImpl {m n mA nA : ℕ}
    (w : SparseMatrixPreconditionerWrapper m n)
    (_A : Matrix (Fin mA) (Fin nA) ℚ) (_D : Fin nA → ℚ) :
    Bool × SparseMatrixPreconditionerWrapper m n :=
  (true, w)

/-- Embedding of
`SparseMatrixPreconditionerWrapper::RightMultiplyAndAccumulate`: computes
`y += matrix * x` (the embedding returns the accumulated vector). -/
def SparseMatrixPreconditionerWrapper.rightMultiplyAndAccumulate {m n : ℕ}
    (w : SparseMatrixPreconditionerWrapper m n)
    (x : Fin n → ℚ) (y : Fin m → ℚ) : Fin m → ℚ :=
  y + w.matrix.mulVec x

/-- Embedding of `SparseMatrixPreconditionerWrapper::num_rows`. -/
def SparseMatrixPreconditionerWrapper.num_rows {m n : ℕ}
    (_w : SparseMatrixPreconditionerWrapper m n) : ℕ := m

end Ceres

/-! ## Claim C9 -/

/-- C9: `Preconditioner::PreconditionerForZeroEBlocks` maps `SCHUR_JACOBI`,
`CLUSTER_JACOBI` and `CLUSTER_TRIDIAGONAL` to `JACOBI`, leaves every other
preconditioner type unchanged, is idempotent, and its image never contains
the three Schur-reduced cluster types. -/
theorem preconditionerForZeroEBlocks_spec :
    (Ceres.preconditionerForZeroEBlocks .SCHUR_JACOBI = .JACOBI ∧
     Ceres.preconditionerForZeroEBlocks .CLUSTER_JACOBI = .JACOBI ∧
     Ceres.preconditionerForZeroEBlocks .CLUSTER_TRIDIAGONAL = .JACOBI) ∧
    (∀ t : Ceres.PreconditionerType,
      t ≠ .SCHUR_JACOBI → t ≠ .CLUSTER_JACOBI → t ≠ .CLUSTER_TRIDIAGONAL →
        Ceres.preconditionerForZeroEBlocks t = t) ∧
    (∀ t : Ceres.PreconditionerType,
      Ceres.preconditionerForZeroEBlocks (Ceres.preconditionerForZeroEBlocks t) =
        Ceres.preconditionerForZeroEBlocks t) ∧
    (∀ t : Ceres.PreconditionerType,
      Ceres.preconditionerForZeroEBlocks t ≠ .SCHUR_JACOBI ∧
      Ceres.preconditionerForZeroEBlocks t ≠ .CLUSTER_JACOBI ∧
      Ceres.preconditionerForZeroEBlocks t ≠ .CLUSTER_TRIDIAGONAL) := by
  refine ⟨⟨rfl, rfl, rfl⟩, ?_, ?_, ?_⟩ <;> intro t <;> cases t <;> decide

/-- C9 witness: the pass-through branch evaluated at `SUBSET`, with the three
disequality hypotheses discharged concretely. -/
theorem preconditionerForZeroEBlocks_spec_witness :
    Ceres.preconditionerForZeroEBlocks .SUBSET = .SUBSET :=
  preconditionerForZeroEBlocks_spec.2.1 .SUBSET
    (by decide) (by decide) (by decide)

/-! ## Claim C10 -/

/-- C10: `SparseMatrixPreconditionerWrapper::Update` succeeds on every input
matrix `A` and damping vector `D` — it always returns `true` — and it leaves
the wrapper state unchanged, so `RightMultiplyAndAccumulate` applies exactly
the same wrapped matrix before and after the update. -/
theorem sparseMatrixPreconditionerWrapper_update_spec :
    ∀ (m n mA nA : ℕ) (w : Ceres.SparseMatrixPreconditionerWrapper m n)
      (A : Matrix (Fin mA) (Fin nA) ℚ) (D : Fin nA → ℚ),
      (w.updateImpl A D).1 = true ∧
      (w.updateImpl A D).2 = w ∧
      (∀ (x : Fin n → ℚ) (y : Fin m → ℚ),
        (w.updateImpl A D).2.rightMultiplyAndAccumulate x y =
          w.rightMultiplyAndAccumulate x y) := by
  intro m n mA nA w A D
  exact ⟨rfl, rfl, fun x y => rfl⟩

namespace Ceres

/-! ### Trust-region minimizer loop

The minimizer implementation is not part of the repository snapshot (only
its documentation in `nnls_solving.rst` and the `Solver::Options`
documentation are), so the loop is modelled from the specification, §4.5,
with costs and radii as exact rationals. -/

/-- Modelled from the spec: the termination causes that the modelled part of
the loop can produce — failure after too many consecutive invalid steps, and
convergence because the trust region radius fell below
`min_trust_region_radius`. -/
inductive TerminationType
  | FAILURE
  | MIN_TRUST_REGION_RADIUS
  deriving DecidableEq, Repr

/-- Modelled from the spec: the subset of `Solver::Options` that drives the
trust-region loop (spec §4.5 and the documented options
`min_relative_decrease`, `min_trust_region_radius`,
`max_trust_region_radius`, `max_num_consecutive_invalid_steps`,
`use_nonmonotonic_steps`, `max_consecutive_nonmonotonic_steps`). -/
structure TROptions where
  min_relative_decrease : ℚ
  min_trust_region_radius : ℚ
  max_trust_region_radius : ℚ
  max_num_consecutive_invalid_steps : ℕ
  use_nonmonotonic_steps : Bool
  max_consecutive_nonmonotonic_steps : ℕ

/-- Modelled from the spec: what one iteration of the loop observes from its
external collaborators (strategy + evaluator): whether the computed step was
numerically valid (finite values and model decrease > 0), the decrease
predicted by the linearized model, and the objective value at the candidate
point `x + Δx`. -/
structure IterOutcome where
  step_is_valid : Bool
  model_cost_change : ℚ
  cost : ℚ

/-- Modelled from the spec: the trust-region state (spec §3 "Trust-region
state" and §4.5 step 4's "tracking best-cost-so-far separately from current
accepted cost"): current cost, minimum cost ever observed (the iterate the
solver finally returns), the reference data of the non-monotonic relaxed
acceptance test, the two consecutive-step counters, the radius `μ`, and the
termination verdict. -/
structure TRState where
  cost : ℚ
  minimum_cost : ℚ
  reference_cost : ℚ
  candidate_max_cost : ℚ
  accumulated_reference_model_cost_change : ℚ
  accumulated_candidate_model_cost_change : ℚ
  num_consecutive_invalid_steps : ℕ
  num_consecutive_nonmonotonic_steps : ℕ
  radius : ℚ
  termination : Option TerminationType

/-- Modelled from the spec: the state before iteration 0 — all cost trackers
start at the initial cost, counters at zero, radius at
`initial_trust_region_radius`. -/
def trInit (cost0 radius0 : ℚ) : TRState :=
  { cost := cost0
    minimum_cost := cost0
    reference_cost := cost0
    candidate_max_cost := cost0
    accumulated_reference_model_cost_change := 0
    accumulated_candidate_model_cost_change := 0
    num_consecutive_invalid_steps := 0
    num_consecutive_nonmonotonic_steps := 0
    radius := radius0
    termination := none }

/-- Modelled from the spec (§4.5 step 2): the step quality ratio
`ρ = (f(x) − f(x+Δx)) / (model decrease)`. -/
def relativeDecrease (s : TRState) (o : IterOutcome) : ℚ :=
  (s.cost - o.cost) / o.model_cost_change

/-- Modelled from the spec (§4.5 step 4): the relaxed non-monotonic quality
ratio, measured against the reference cost and the model decrease
accumulated since the reference iterate was set. -/
def historicalRelativeDecrease (s : TRState) (o : IterOutcome) : ℚ :=
  (s.reference_cost - o.cost) /
    (s.accumulated_reference_model_cost_change + o.model_cost_change)

/-- Modelled from the spec (§4.5 step 4): accept if `ρ >
min_relative_decrease`, or — when non-monotonic steps are enabled — if the
relaxed historical ratio exceeds the same threshold. -/
def stepAccepted (opts : TROptions) (s : TRState) (o : IterOutcome) : Bool :=
  decide (relativeDecrease s o > opts.min_relative_decrease) ||
    (opts.use_nonmonotonic_steps &&
      decide (historicalRelativeDecrease s o > opts.min_relative_decrease))

/-- Modelled from the spec (§4.5 step 5): on a successful step the radius
grows by a factor of 2 but never past `max_trust_region_radius`; the current
cost becomes the candidate cost; the minimum cost ever observed is updated;
the invalid-step counter resets; and the non-monotonic reference bookkeeping
is advanced (the reference iterate moves once
`max_consecutive_nonmonotonic_steps` accepted steps have failed to improve
on the best cost). -/
def handleSuccessfulStep (opts : TROptions) (s : TRState) (o : IterOutcome) :
    TRState :=
  let s1 : TRState :=
    { s with
      cost := o.cost
      radius := min (2 * s.radius) opts.max_trust_region_radius
      num_consecutive_invalid_steps := 0
      accumulated_candidate_model_cost_change :=
        s.accumulated_candidate_model_cost_change + o.model_cost_change
      accumulated_reference_model_cost_change :=
        s.accumulated_reference_model_cost_change + o.model_cost_change }
  let s2 : TRState :=
    if o.cost < s.minimum_cost then
      { s1 with
        minimum_cost := o.cost
        num_consecutive_nonmonotonic_steps := 0
        candidate_max_cost := o.cost
        accumulated_candidate_model_cost_change := 0 }
    else
      let s1' :=
        { s1 with
          num_consecutive_nonmonotonic_steps :=
            s.num_consecutive_nonmonotonic_steps + 1 }
      if o.cost > s.candidate_max_cost then
        { s1' with
          candidate_max_cost := o.cost
          accumulated_candidate_model_cost_change := 0 }
      else s1'
  if s2.num_consecutive_nonmonotonic_steps =
      opts.max_consecutive_nonmonotonic_steps then
    { s2 with
      reference_cost := s2.candidate_max_cost
      accumulated_reference_model_cost_change :=
        s2.accumulated_candidate_model_cost_change }
  else s2

/-- Modelled from the spec (§4.5 step 5): a rejected step halves the radius;
if the radius falls below `min_trust_region_radius` the solver terminates.
The step was valid, so the invalid-step counter resets. -/
def handleRejectedStep (opts : TROptions) (s : TRState) : TRState :=
  let r := s.radius / 2
  { s with
    radius := r
    num_consecutive_invalid_steps := 0
    termination :=
      if r < opts.min_trust_region_radius then
        some TerminationType.MIN_TRUST_REGION_RADIUS
      else s.termination }

/-- Modelled from the spec (§4.5 step 3 and §8 "Consecutive invalid steps"):
an invalid step increments the consecutive-invalid-step counter; once the
counter reaches `max_num_consecutive_invalid_steps` the solver terminates
with failure — so an always-failing linear solver stops the loop after
exactly that many iterations.  Otherwise the invalid step is treated like a
rejected step (§7c): the radius halves and the min-radius test applies. -/
def handleInvalidStep (opts : TROptions) (s : TRState) : TRState :=
  let n := s.num_consecutive_invalid_steps + 1
  if opts.max_num_consecutive_invalid_steps ≤ n then
    { s with
      num_consecutive_invalid_steps := n
      termination := some TerminationType.FAILURE }
  else
    let r := s.radius / 2
    { s with
      num_consecutive_invalid_steps := n
      radius := r
      termination :=
        if r < opts.min_trust_region_radius then
          some TerminationType.MIN_TRUST_REGION_RADIUS
        else s.termination }

/-- Modelled from the spec (§4.5): one iteration of the trust-region loop,
dispatching on step validity and on the acceptance test. -/
def trStep (opts : TROptions) (s : TRState) (o : IterOutcome) : TRState :=
  if o.step_is_valid = false then handleInvalidStep opts s
  else if stepAccepted opts s o then handleSuccessfulStep opts s o
  else handleRejectedStep opts s

/-- Modelled from the spec (§4.5): run the loop over a list of per-iteration
outcomes, stopping as soon as a termination verdict is set.  Returns the
final state together with the audit trail of per-iteration costs (the
`IterationSummary::cost` values). -/
def trRun (opts : TROptions) : TRState → List IterOutcome → TRState × List ℚ
  | s, [] => (s, [])
  | s, o :: os =>
    if s.termination.isSome then (s, [])
    else
      let s' := trStep opts s o
      let rest := trRun opts s' os
      (rest.1, s'.cost :: rest.2)

/-- Modelled from the spec (§4.5, final sentence, and
`Solver::Summary::final_cost`): the parameters returned to the user are the
ones of the minimum-cost iterate ever observed, so the final reported cost
is the tracked minimum cost. -/
def finalCost (s : TRState) : ℚ := s.minimum_cost

/-- Modelled from the spec: the per-iteration states visited by the loop, in
order — the trace over which the radius invariant is stated. -/
def trStates (opts : TROptions) : TRState → List IterOutcome → List TRState
  | _, [] => []
  | s, o :: os =>
    if s.termination.isSome then []
    else
      let s' := trStep opts s o
      s' :: trStates opts s' os

end Ceres

/-! ## Claim C1 -/

/-- Helper: one loop iteration keeps the tracked minimum cost equal to the
minimum of the previous tracked minimum and the new current cost. -/
theorem trStep_minimum_cost_eq (opts : Ceres.TROptions) (s : Ceres.TRState)
    (o : Ceres.IterOutcome) (h : s.minimum_cost ≤ s.cost) :
    (Ceres.trStep opts s o).minimum_cost =
      min s.minimum_cost (Ceres.trStep opts s o).cost := by
  simp only [Ceres.trStep, Ceres.handleInvalidStep, Ceres.handleRejectedStep,
    Ceres.handleSuccessfulStep]
  split_ifs <;> simp_all <;>
    first
      | exact (min_eq_left h).symm
      | exact (min_eq_right (by linarith)).symm
      | exact (min_eq_left (by linarith)).symm
      | linarith

/-- Helper: the tracked minimum cost never exceeds the current cost. -/
theorem trStep_minimum_le_cost (opts : Ceres.TROptions) (s : Ceres.TRState)
    (o : Ceres.IterOutcome) (h : s.minimum_cost ≤ s.cost) :
    (Ceres.trStep opts s o).minimum_cost ≤ (Ceres.trStep opts s o).cost := by
  rw [trStep_minimum_cost_eq opts s o h]
  exact min_le_right _ _

/-- Helper: a left fold by `min` is below its initial value. -/
theorem foldl_min_le_init (l : List ℚ) : ∀ a : ℚ, l.foldl min a ≤ a := by
  induction l with
  | nil => intro a; exact le_refl a
  | cons x l ih =>
    intro a
    calc l.foldl min (min a x) ≤ min a x := ih (min a x)
    _ ≤ a := min_le_left a x

/-- Helper: a left fold by `min` is below every list element. -/
theorem foldl_min_le_mem (l : List ℚ) :
    ∀ (a b : ℚ), b ∈ l → l.foldl min a ≤ b := by
  induction l with
  | nil => intro a b hb; cases hb
  | cons x l ih =>
    intro a b hb
    rcases List.mem_cons.mp hb with hb | hb
    · subst hb
      calc l.foldl min (min a b) ≤ min a b := foldl_min_le_init l (min a b)
      _ ≤ b := min_le_right a b
    · exact ih (min a x) b hb

/-- Helper: along any run of the loop, the final tracked minimum cost is the
`min`-fold of the audit trail of per-iteration costs. -/
theorem trRun_minimum_cost_eq (opts : Ceres.TROptions) :
    ∀ (os : List Ceres.IterOutcome) (s : Ceres.TRState),
      s.minimum_cost ≤ s.cost →
      (Ceres.trRun opts s os).1.minimum_cost =
        (Ceres.trRun opts s os).2.foldl min s.minimum_cost := by
  intro os
  induction os with
  | nil => intro s _; rfl
  | cons o os ih =>
    intro s h
    by_cases hterm : s.termination.isSome
    · simp [Ceres.trRun, hterm]
    · have hstep := trStep_minimum_cost_eq opts s o h
      have hinv := trStep_minimum_le_cost opts s o h
      simp only [Ceres.trRun, hterm, Bool.false_eq_true, if_false]
      simp only [List.foldl_cons]
      rw [ih (Ceres.trStep opts s o) hinv, hstep]

/-- C1: for every trust-region run, the final cost reported for the returned
parameter vector equals the minimum over the initial cost and all
per-iteration costs — the solver returns the minimum-cost iterate ever
observed, not necessarily the last accepted one — and in particular it is
less than or equal to the initial cost and to every iteration's cost. -/
theorem trust_region_final_cost_is_minimum (opts : Ceres.TROptions)
    (cost0 radius0 : ℚ) (os : List Ceres.IterOutcome) :
    Ceres.finalCost (Ceres.trRun opts (Ceres.trInit cost0 radius0) os).1 =
      (Ceres.trRun opts (Ceres.trInit cost0 radius0) os).2.foldl min cost0 ∧
    Ceres.finalCost (Ceres.trRun opts (Ceres.trInit cost0 radius0) os).1 ≤
      cost0 ∧
    ∀ c ∈ (Ceres.trRun opts (Ceres.trInit cost0 radius0) os).2,
      Ceres.finalCost (Ceres.trRun opts (Ceres.trInit cost0 radius0) os).1 ≤
        c := by
  have h0 : (Ceres.trInit cost0 radius0).minimum_cost ≤
      (Ceres.trInit cost0 radius0).cost := le_refl _
  have heq := trRun_minimum_cost_eq opts os (Ceres.trInit cost0 radius0) h0
  refine ⟨heq, ?_, ?_⟩
  · rw [Ceres.finalCost, heq]
    exact foldl_min_le_init _ _
  · intro c hc
    rw [Ceres.finalCost, heq]
    exact foldl_min_le_mem _ _ _ hc

/-- C1 witness: a concrete non-monotonic-style run — costs 10, 4, 7
(an accepted increase), 6 — whose returned final cost is 4, the minimum over
all iterations. -/
theorem trust_region_final_cost_is_minimum_witness :
    Ceres.finalCost
        (Ceres.trRun
          { min_relative_decrease := 1/1000
            min_trust_region_radius := 1/1000000
            max_trust_region_radius := 1000000
            max_num_consecutive_invalid_steps := 5
            use_nonmonotonic_steps := true
            max_consecutive_nonmonotonic_steps := 3 }
          (Ceres.trInit 10 16)
          [⟨true, 1, 4⟩, ⟨true, 1, 7⟩, ⟨true, 1, 6⟩]).1 = 4 := by
  have h := (trust_region_final_cost_is_minimum
    { min_relative_decrease := 1/1000
      min_trust_region_radius := 1/1000000
      max_trust_region_radius := 1000000
      max_num_consecutive_invalid_steps := 5
      use_nonmonotonic_steps := true
      max_consecutive_nonmonotonic_steps := 3 }
    10 16 [⟨true, 1, 4⟩, ⟨true, 1, 7⟩, ⟨true, 1, 6⟩]).1
  rw [h]
  norm_num [Ceres.trRun, Ceres.trStep, Ceres.stepAccepted, Ceres.relativeDecrease,
    Ceres.historicalRelativeDecrease, Ceres.handleSuccessfulStep,
    Ceres.handleRejectedStep, Ceres.handleInvalidStep, Ceres.trInit]

/-! ## Claim C2 -/

/-- Helper: a run started in a terminated state visits no further states. -/
theorem trStates_of_terminated (opts : Ceres.TROptions) (s : Ceres.TRState)
    (os : List Ceres.IterOutcome) (h : s.termination.isSome) :
    Ceres.trStates opts s os = [] := by
  cases os with
  | nil => rfl
  | cons o os => simp [Ceres.trStates, h]

/-- Helper: one loop iteration from a live in-range state keeps the radius in
`[min_trust_region_radius, max_trust_region_radius]` unless it terminates:
growth is capped at the maximum and a shrink below the minimum sets the
termination verdict at once. -/
theorem trStep_radius_invariant (opts : Ceres.TROptions) (s : Ceres.TRState)
    (o : Ceres.IterOutcome)
    (hmin : 0 < opts.min_trust_region_radius)
    (hlo : opts.min_trust_region_radius ≤ s.radius)
    (hhi : s.radius ≤ opts.max_trust_region_radius)
    (hlive : s.termination = none) :
    (Ceres.trStep opts s o).termination = none →
      opts.min_trust_region_radius ≤ (Ceres.trStep opts s o).radius ∧
      (Ceres.trStep opts s o).radius ≤ opts.max_trust_region_radius := by
  simp only [Ceres.trStep, Ceres.handleInvalidStep, Ceres.handleRejectedStep,
    Ceres.handleSuccessfulStep]
  split_ifs <;> intro hlive' <;> simp_all <;>
    first
      | linarith
      | constructor <;>
          first
            | exact le_min (by linarith) (by linarith)
            | exact min_le_right _ _
            | linarith

/-- Helper: the radius invariant propagates along every run. -/
theorem trStates_radius_invariant (opts : Ceres.TROptions)
    (hmin : 0 < opts.min_trust_region_radius) :
    ∀ (os : List Ceres.IterOutcome) (s : Ceres.TRState),
      s.termination = none →
      opts.min_trust_region_radius ≤ s.radius →
      s.radius ≤ opts.max_trust_region_radius →
      ∀ s' ∈ Ceres.trStates opts s os,
        s'.termination = none →
          opts.min_trust_region_radius ≤ s'.radius ∧
          s'.radius ≤ opts.max_trust_region_radius := by
  intro os
  induction os with
  | nil => intro s _ _ _ s' hs'; cases hs'
  | cons o os ih =>
    intro s hlive hlo hhi s' hs'
    rw [Ceres.trStates] at hs'
    rw [hlive] at hs'
    simp only [Option.isSome_none, Bool.false_eq_true, if_false] at hs'
    rcases List.mem_cons.mp hs' with h | h
    · subst h
      exact trStep_radius_invariant opts s o hmin hlo hhi hlive
    · by_cases hlive' : (Ceres.trStep opts s o).termination = none
      · have hb := trStep_radius_invariant opts s o hmin hlo hhi hlive hlive'
        exact ih (Ceres.trStep opts s o) hlive' hb.1 hb.2 s' h
      · have : (Ceres.trStep opts s o).termination.isSome := by
          cases hterm : (Ceres.trStep opts s o).termination with
          | none => exact absurd hterm hlive'
          | some t => rfl
        rw [trStates_of_terminated opts _ os this] at h
        cases h

/-- C2: starting from a radius inside
`[min_trust_region_radius, max_trust_region_radius]` with a positive minimum,
every state a trust-region run visits while the solver is still live has its
radius inside that interval — growth (×2) is capped by the maximum, and the
moment a shrink (×0.5) takes the radius below the minimum the solver
terminates, so a live state's radius is never below the minimum. -/
theorem trust_region_radius_stays_in_range (opts : Ceres.TROptions)
    (cost0 radius0 : ℚ) (os : List Ceres.IterOutcome)
    (hmin : 0 < opts.min_trust_region_radius)
    (hlo : opts.min_trust_region_radius ≤ radius0)
    (hhi : radius0 ≤ opts.max_trust_region_radius) :
    ∀ s' ∈ Ceres.trStates opts (Ceres.trInit cost0 radius0) os,
      (s'.termination = none →
        opts.min_trust_region_radius ≤ s'.radius ∧
        s'.radius ≤ opts.max_trust_region_radius) ∧
      (s'.radius < opts.min_trust_region_radius → s'.termination.isSome) := by
  intro s' hs'
  have hinv := trStates_radius_invariant opts hmin os
    (Ceres.trInit cost0 radius0) rfl hlo hhi s' hs'
  refine ⟨hinv, ?_⟩
  intro hrad
  cases hterm : s'.termination with
  | some t => rfl
  | none =>
    have := (hinv hterm).1
    exact absurd hrad (not_lt.mpr this)

/-- C2 witness: a concrete run (one accepted step from radius 8, bounds
`[1, 100]`) whose visited state is live with radius `16 = min (2*8) 100`
inside the bounds. -/
theorem trust_region_radius_stays_in_range_witness :
    (1 : ℚ) ≤ (Ceres.trStep
        { min_relative_decrease := 0
          min_trust_region_radius := 1
          max_trust_region_radius := 100
          max_num_consecutive_invalid_steps := 5
          use_nonmonotonic_steps := false
          max_consecutive_nonmonotonic_steps := 0 }
        (Ceres.trInit 10 8) ⟨true, 1, 4⟩).radius ∧
    (Ceres.trStep
        { min_relative_decrease := 0
          min_trust_region_radius := 1
          max_trust_region_radius := 100
          max_num_consecutive_invalid_steps := 5
          use_nonmonotonic_steps := false
          max_consecutive_nonmonotonic_steps := 0 }
        (Ceres.trInit 10 8) ⟨true, 1, 4⟩).radius ≤ 100 := by
  have hmem : (Ceres.trStep
      { min_relative_decrease := 0
        min_trust_region_radius := 1
        max_trust_region_radius := 100
        max_num_consecutive_invalid_steps := 5
        use_nonmonotonic_steps := false
        max_consecutive_nonmonotonic_steps := 0 }
      (Ceres.trInit 10 8) ⟨true, 1, 4⟩) ∈
      Ceres.trStates
        { min_relative_decrease := 0
          min_trust_region_radius := 1
          max_trust_region_radius := 100
          max_num_consecutive_invalid_steps := 5
          use_nonmonotonic_steps := false
          max_consecutive_nonmonotonic_steps := 0 }
        (Ceres.trInit 10 8) [⟨true, 1, 4⟩] := by
    simp [Ceres.trStates, Ceres.trInit]
  have h := (trust_region_radius_stays_in_range _ 10 8 [⟨true, 1, 4⟩]
    (by norm_num) (by norm_num) (by norm_num) _ hmem).1
  apply h
  norm_num [Ceres.trStep, Ceres.stepAccepted, Ceres.relativeDecrease,
    Ceres.historicalRelativeDecrease, Ceres.handleSuccessfulStep, Ceres.trInit]

/-! ## Claim C3 -/

/-- Helper: a run started in a terminated state processes no iterations. -/
theorem trRun_of_terminated (opts : Ceres.TROptions) (s : Ceres.TRState)
    (os : List Ceres.IterOutcome) (h : s.termination.isSome) :
    Ceres.trRun opts s os = (s, []) := by
  cases os with
  | nil => rfl
  | cons o os => simp [Ceres.trRun, h]

/-- Helper: from a live state whose invalid-step budget has `m ≥ 1` steps
left and whose radius is large enough not to hit the minimum-radius test
first, a stream of invalid steps terminates the run with `FAILURE` after
exactly `m` further iterations, with the counter at its maximum. -/
theorem trRun_all_invalid (opts : Ceres.TROptions)
    (hminR : 0 ≤ opts.min_trust_region_radius) :
    ∀ (os : List Ceres.IterOutcome) (s : Ceres.TRState) (m : ℕ),
      s.termination = none →
      1 ≤ m →
      s.num_consecutive_invalid_steps + m =
        opts.max_num_consecutive_invalid_steps →
      (∀ o ∈ os, o.step_is_valid = false) →
      m ≤ os.length →
      opts.min_trust_region_radius * 2 ^ (m - 1) ≤ s.radius →
      (Ceres.trRun opts s os).1.termination =
          some Ceres.TerminationType.FAILURE ∧
        (Ceres.trRun opts s os).2.length = m ∧
        (Ceres.trRun opts s os).1.num_consecutive_invalid_steps =
          opts.max_num_consecutive_invalid_steps := by
  intro os
  induction os with
  | nil =>
    intro s m _ hm hsum _ hlen _
    simp at hlen
    omega
  | cons o os ih =>
    intro s m hlive hm hsum hall hlen hrad
    have ho : o.step_is_valid = false := hall o (List.mem_cons_self o os)
    have hterm : s.termination.isSome = false := by rw [hlive]; rfl
    rcases Nat.lt_or_ge m 2 with hm1 | hm2
    · -- m = 1 : this invalid step reaches the budget and the loop fails now.
      have hm' : m = 1 := by omega
      subst hm'
      have hmax : opts.max_num_consecutive_invalid_steps ≤
          s.num_consecutive_invalid_steps + 1 := by omega
      simp only [Ceres.trRun, hterm, Bool.false_eq_true, if_false]
      have hstep : Ceres.trStep opts s o =
          { s with
            num_consecutive_invalid_steps :=
              s.num_consecutive_invalid_steps + 1
            termination := some Ceres.TerminationType.FAILURE } := by
        simp [Ceres.trStep, ho, Ceres.handleInvalidStep, hmax]
      rw [hstep]
      rw [trRun_of_terminated opts _ os (by simp)]
      refine ⟨rfl, rfl, ?_⟩
      simp
      omega
    · -- m ≥ 2 : the counter has room, the radius halves, the run goes on.
      have hnotmax : ¬ opts.max_num_consecutive_invalid_steps ≤
          s.num_consecutive_invalid_steps + 1 := by omega
      have hpow : (2 : ℚ) ^ (m - 1) = 2 * 2 ^ (m - 2) := by
        have h1 : m - 1 = (m - 2) + 1 := by omega
        rw [h1, pow_succ]
        ring
      have hge1 : (1 : ℚ) ≤ 2 ^ (m - 2) := one_le_pow₀ (by norm_num)
      have hrad2 : opts.min_trust_region_radius * 2 ^ (m - 2) ≤
          s.radius / 2 := by
        rw [hpow] at hrad
        linarith
      have hnoshrinkstop : ¬ s.radius / 2 < opts.min_trust_region_radius := by
        have : opts.min_trust_region_radius ≤
            opts.min_trust_region_radius * 2 ^ (m - 2) := by
          nlinarith
        linarith
      have hstep : Ceres.trStep opts s o =
          { s with
            num_consecutive_invalid_steps :=
              s.num_consecutive_invalid_steps + 1
            radius := s.radius / 2 } := by
        simp [Ceres.trStep, ho, Ceres.handleInvalidStep, hnotmax,
          hnoshrinkstop, hlive]
      simp only [Ceres.trRun, hterm, Bool.false_eq_true, if_false]
      rw [hstep]
      have hrec := ih
        { s with
          num_consecutive_invalid_steps := s.num_consecutive_invalid_steps + 1
          radius := s.radius / 2 }
        (m - 1) hlive (by omega) (by simp; omega)
        (fun o' ho' => hall o' (List.mem_cons_of_mem o ho'))
        (by simp at hlen ⊢; omega)
        (by
          have hmm : m - 1 - 1 = m - 2 := by omega
          simp only [hmm]
          exact hrad2)
      refine ⟨hrec.1, ?_, hrec.2.2⟩
      simp only [List.length_cons, hrec.2.1]
      omega

/-- Options for the concrete always-invalid run: an invalid-step budget of 2
and a minimum radius small enough that the radius test never fires first. -/
def c3Opts : Ceres.TROptions :=
  { min_relative_decrease := 0
    min_trust_region_radius := 1
    max_trust_region_radius := 1000000
    max_num_consecutive_invalid_steps := 2
    use_nonmonotonic_steps := false
    max_consecutive_nonmonotonic_steps := 0 }

/-- The outcome produced by a linear solver stub that always reports
failure: the step is never valid. -/
def c3Outcome : Ceres.IterOutcome :=
  { step_is_valid := false, model_cost_change := 0, cost := 0 }

/-- The concrete always-invalid run: three invalid outcomes are offered, the
budget is 2. -/
def c3Run : Ceres.TRState × List ℚ :=
  Ceres.trRun c3Opts (Ceres.trInit 10 32) [c3Outcome, c3Outcome, c3Outcome]

/-- C3 counterexample: with `max_num_consecutive_invalid_steps = 2` and an
always-failing linear solver the modelled loop terminates with failure after
exactly 2 iterations — at that point the consecutive-invalid-step counter
equals 2, it does not exceed 2.  So the claim's two parts cannot both hold:
termination occurs when the counter reaches the limit, not when it exceeds
it (under the strictly-exceeds rule the run would take 3 iterations, not
exactly 2). -/
theorem trust_region_invalid_steps_counterexample :
    c3Run.1.termination = some Ceres.TerminationType.FAILURE ∧
    c3Run.2.length = 2 ∧
    c3Run.1.num_consecutive_invalid_steps = 2 ∧
    ¬ (c3Run.1.num_consecutive_invalid_steps >
        c3Opts.max_num_consecutive_invalid_steps) := by
  have heval : c3Run.1.termination = some Ceres.TerminationType.FAILURE ∧
      c3Run.2.length = 2 ∧
      c3Run.1.num_consecutive_invalid_steps = 2 := by
    norm_num [c3Run, c3Opts, c3Outcome, Ceres.trRun, Ceres.trStep,
      Ceres.handleInvalidStep, Ceres.trInit]
  refine ⟨heval.1, heval.2.1, heval.2.2, ?_⟩
  rw [heval.2.2]
  norm_num [c3Opts]

/-- C3 amended: if the linear solver reports failure at every iteration, the
trust-region minimizer terminates with failure after exactly
`max_num_consecutive_invalid_steps` iterations, no more and no fewer
(provided enough iterations are offered and the radius does not first drop
below `min_trust_region_radius`); each invalid step increments the
consecutive-invalid-step counter, the counter is reset by a valid step, and
termination occurs when the counter *reaches*
`max_num_consecutive_invalid_steps`. -/
theorem trust_region_invalid_steps_amended (opts : Ceres.TROptions)
    (cost0 radius0 : ℚ) (os : List Ceres.IterOutcome)
    (hN : 1 ≤ opts.max_num_consecutive_invalid_steps)
    (hall : ∀ o ∈ os, o.step_is_valid = false)
    (hlen : opts.max_num_consecutive_invalid_steps ≤ os.length)
    (hminR : 0 ≤ opts.min_trust_region_radius)
    (hrad : opts.min_trust_region_radius *
        2 ^ (opts.max_num_consecutive_invalid_steps - 1) ≤ radius0) :
    ((Ceres.trRun opts (Ceres.trInit cost0 radius0) os).1.termination =
        some Ceres.TerminationType.FAILURE ∧
      (Ceres.trRun opts (Ceres.trInit cost0 radius0) os).2.length =
        opts.max_num_consecutive_invalid_steps ∧
      (Ceres.trRun opts
          (Ceres.trInit cost0 radius0) os).1.num_consecutive_invalid_steps =
        opts.max_num_consecutive_invalid_steps) ∧
    (∀ (s : Ceres.TRState) (o : Ceres.IterOutcome),
      o.step_is_valid = false →
        (Ceres.trStep opts s o).num_consecutive_invalid_steps =
          s.num_consecutive_invalid_steps + 1) ∧
    (∀ (s : Ceres.TRState) (o : Ceres.IterOutcome),
      o.step_is_valid = true →
        (Ceres.trStep opts s o).num_consecutive_invalid_steps = 0) := by
  refine ⟨?_, ?_, ?_⟩
  · exact trRun_all_invalid opts hminR os (Ceres.trInit cost0 radius0)
      opts.max_num_consecutive_invalid_steps rfl hN (by simp [Ceres.trInit])
      hall hlen hrad
  · intro s o ho
    simp only [Ceres.trStep, ho, Ceres.handleInvalidStep]
    split_ifs <;> rfl
  · intro s o ho
    simp only [Ceres.trStep, ho]
    split_ifs with h1 h2 <;>
      simp_all [Ceres.handleSuccessfulStep, Ceres.handleRejectedStep,
        apply_ite (Ceres.TRState.num_consecutive_invalid_steps)]

/-- C3 witness: the amended theorem applied to the concrete budget-2
always-invalid run — it terminates with failure after exactly 2
iterations. -/
theorem trust_region_invalid_steps_amended_witness :
    c3Run.1.termination = some Ceres.TerminationType.FAILURE ∧
    c3Run.2.length = c3Opts.max_num_consecutive_invalid_steps := by
  have h := trust_region_invalid_steps_amended c3Opts 10 32
    [c3Outcome, c3Outcome, c3Outcome]
    (by norm_num [c3Opts])
    (by intro o ho; fin_cases ho <;> rfl)
    (by norm_num [c3Opts])
    (by norm_num [c3Opts])
    (by norm_num [c3Opts])
  exact ⟨h.1.1, h.1.2.1⟩

/-! ## Claim C4 -/

/-- C4: in monotone mode a step is accepted exactly when its quality ratio
`ρ` (actual decrease over model decrease) exceeds `min_relative_decrease`;
hence every accepted monotone step has actual decrease at least
`min_relative_decrease` times the predicted decrease; and with non-monotonic
mode enabled a step whose `ρ` fails the threshold may still be accepted via
the relaxed historical test. -/
theorem trust_region_step_acceptance :
    (∀ (opts : Ceres.TROptions) (s : Ceres.TRState) (o : Ceres.IterOutcome),
      opts.use_nonmonotonic_steps = false →
        (Ceres.stepAccepted opts s o = true ↔
          Ceres.relativeDecrease s o > opts.min_relative_decrease)) ∧
    (∀ (opts : Ceres.TROptions) (s : Ceres.TRState) (o : Ceres.IterOutcome),
      opts.use_nonmonotonic_steps = false →
      Ceres.stepAccepted opts s o = true →
      0 < o.model_cost_change →
        opts.min_relative_decrease * o.model_cost_change ≤ s.cost - o.cost) ∧
    (∃ (opts : Ceres.TROptions) (s : Ceres.TRState) (o : Ceres.IterOutcome),
      opts.use_nonmonotonic_steps = true ∧
      ¬ (Ceres.relativeDecrease s o > opts.min_relative_decrease) ∧
      Ceres.stepAccepted opts s o = true) := by
  have hmono : ∀ (opts : Ceres.TROptions) (s : Ceres.TRState)
      (o : Ceres.IterOutcome),
      opts.use_nonmonotonic_steps = false →
        (Ceres.stepAccepted opts s o = true ↔
          Ceres.relativeDecrease s o > opts.min_relative_decrease) := by
    intro opts s o hmode
    simp [Ceres.stepAccepted, hmode]
  refine ⟨hmono, ?_, ?_⟩
  · intro opts s o hmode hacc hmodel
    have hrho := (hmono opts s o hmode).mp hacc
    rw [Ceres.relativeDecrease, gt_iff_lt, lt_div_iff hmodel] at hrho
    linarith
  · refine ⟨{ min_relative_decrease := 0
              min_trust_region_radius := 1
              max_trust_region_radius := 1000000
              max_num_consecutive_invalid_steps := 5
              use_nonmonotonic_steps := true
              max_consecutive_nonmonotonic_steps := 3 },
            { Ceres.trInit 10 16 with cost := 5 },
            { step_is_valid := true, model_cost_change := 1, cost := 5 },
            rfl, ?_, ?_⟩
    · norm_num [Ceres.relativeDecrease]
    · norm_num [Ceres.stepAccepted, Ceres.relativeDecrease,
        Ceres.historicalRelativeDecrease, Ceres.trInit]

/-- C4 witness: the monotone acceptance test applied concretely — a step
with `ρ = 6` against a threshold of `1/1000` is accepted. -/
theorem trust_region_step_acceptance_witness :
    Ceres.stepAccepted
      { min_relative_decrease := 1/1000
        min_trust_region_radius := 1
        max_trust_region_radius := 1000000
        max_num_consecutive_invalid_steps := 5
        use_nonmonotonic_steps := false
        max_consecutive_nonmonotonic_steps := 0 }
      (Ceres.trInit 10 16)
      { step_is_valid := true, model_cost_change := 1, cost := 4 } = true := by
  refine (trust_region_step_acceptance.1 _ _ _ rfl).mpr ?_
  norm_num [Ceres.relativeDecrease, Ceres.trInit]

namespace Ceres

/-! ### Configuration validation (claim C6)

The option-validation code (`solver.cc`) is not part of the repository
snapshot; the validation rule is modelled from the specification (§7a and
the documented constraints that `DOGLEG` requires an exact factorization
linear solver while `CGNR` and `ITERATIVE_SCHUR` are iterative). -/

/-- The linear solvers enumerated in the solver documentation. -/
inductive LinearSolverType
  | DENSE_NORMAL_CHOLESKY
  | DENSE_QR
  | SPARSE_NORMAL_CHOLESKY
  | DENSE_SCHUR
  | SPARSE_SCHUR
  | ITERATIVE_SCHUR
  | CGNR
  deriving DecidableEq, Repr

/-- The trust-region strategies enumerated in the solver documentation. -/
inductive TrustRegionStrategyType
  | LEVENBERG_MARQUARDT
  | DOGLEG
  deriving DecidableEq, Repr

/-- Modelled from the spec: `CGNR` and `ITERATIVE_SCHUR` are the iterative
(inexact-step, non-factorization) linear solvers; every other solver is an
exact factorization solver. -/
def isIterativeLinearSolver : LinearSolverType → Bool
  | .CGNR => true
  | .ITERATIVE_SCHUR => true
  | _ => false

/-- The option fields involved in the Dogleg/iterative-solver constraint. -/
structure SolverConfig where
  trust_region_strategy_type : TrustRegionStrategyType
  linear_solver_type : LinearSolverType
  deriving DecidableEq, Repr

/-- Modelled from the spec (§7a): configuration validation runs before any
solving; an invalid combination — Dogleg together with an iterative linear
solver — is rejected with a descriptive message, and a valid configuration
is passed through unchanged (never silently coerced into a different
configuration). -/
def validateTrustRegionOptions (c : SolverConfig) : Except String SolverConfig :=
  if c.trust_region_strategy_type = TrustRegionStrategyType.DOGLEG ∧
     isIterativeLinearSolver c.linear_solver_type = true then
    Except.error
      "DOGLEG requires an exact factorization based linear solver; it cannot be used with CGNR or ITERATIVE_SCHUR."
  else
    Except.ok c

end Ceres

/-! ## Claim C6 -/

/-- C6: selecting the Dogleg strategy together with an iterative linear
solver (`CGNR` or `ITERATIVE_SCHUR`) is rejected by configuration
validation with a descriptive (non-empty) message, before any solving; any
configuration that passes validation is returned exactly as given, so no
configuration is ever silently coerced into a different one. -/
theorem dogleg_iterative_solver_validation :
    (∀ c : Ceres.SolverConfig,
      c.trust_region_strategy_type = Ceres.TrustRegionStrategyType.DOGLEG →
      (c.linear_solver_type = Ceres.LinearSolverType.CGNR ∨
        c.linear_solver_type = Ceres.LinearSolverType.ITERATIVE_SCHUR) →
        ∃ msg : String,
          Ceres.validateTrustRegionOptions c = Except.error msg ∧ msg ≠ "") ∧
    (∀ c c' : Ceres.SolverConfig,
      Ceres.validateTrustRegionOptions c = Except.ok c' → c' = c) := by
  constructor
  · intro c hstrat hsolver
    refine ⟨"DOGLEG requires an exact factorization based linear solver; it cannot be used with CGNR or ITERATIVE_SCHUR.", ?_, ?_⟩
    · rw [Ceres.validateTrustRegionOptions, if_pos]
      refine ⟨hstrat, ?_⟩
      rcases hsolver with h | h <;> rw [h] <;> rfl
    · decide
  · intro c c' h
    rw [Ceres.validateTrustRegionOptions] at h
    split_ifs at h <;> cases h <;> rfl


/-- C6 witness: Dogleg with `CGNR` is rejected with a non-empty message. -/
theorem dogleg_iterative_solver_validation_witness :
    ∃ msg : String,
      Ceres.validateTrustRegionOptions
        { trust_region_strategy_type := Ceres.TrustRegionStrategyType.DOGLEG
          linear_solver_type := Ceres.LinearSolverType.CGNR } =
        Except.error msg ∧ msg ≠ "" :=
  dogleg_iterative_solver_validation.1
    { trust_region_strategy_type := Ceres.TrustRegionStrategyType.DOGLEG
      linear_solver_type := Ceres.LinearSolverType.CGNR }
    rfl (Or.inl rfl)

namespace Ceres

/-! ### Schur complement solvers (claim C5)

The Schur eliminator and the iterative Schur solver are not part of the
repository snapshot; the two solution paths are modelled from the
specification (§4.3 and the documentation's `schur` / `schurtrick1`
equations) over exact rationals. -/

/-- Modelled from the spec: the explicitly formed reduced camera matrix
(Schur complement) `S = B − E C⁻¹ Eᵗ`, with the block-diagonal inverse
`C⁻¹` supplied by the blockwise inversion of the e-block matrix `C`. -/
def schurComplement {p q : ℕ} (B : Matrix (Fin p) (Fin p) ℚ)
    (E : Matrix (Fin p) (Fin q) ℚ) (Cinv : Matrix (Fin q) (Fin q) ℚ) :
    Matrix (Fin p) (Fin p) ℚ :=
  B - E * Cinv * E.transpose

/-- Modelled from the spec: the matrix-free product of the iterative Schur
path (`schurtrick1`): `x₁ = Eᵗx`, `x₂ = C⁻¹x₁`, `x₃ = Ex₂`, `x₄ = Bx`,
`Sx = x₄ − x₃`, never materializing `S`. -/
def schurTrickProduct {p q : ℕ} (B : Matrix (Fin p) (Fin p) ℚ)
    (E : Matrix (Fin p) (Fin q) ℚ) (Cinv : Matrix (Fin q) (Fin q) ℚ)
    (x : Fin p → ℚ) : Fin p → ℚ :=
  let x1 := E.transpose.mulVec x
  let x2 := Cinv.mulVec x1
  let x3 := E.mulVec x2
  let x4 := B.mulVec x
  x4 - x3

/-- Modelled from the spec: the explicit Schur elimination path — solve the
reduced system `S Δy = v − E C⁻¹ w` (here via the solved reduced-system
inverse `Sinv`), then back-substitute `Δz = C⁻¹(w − Eᵗ Δy)`. -/
def schurEliminationSolve {p q : ℕ} (E : Matrix (Fin p) (Fin q) ℚ)
    (Cinv : Matrix (Fin q) (Fin q) ℚ) (Sinv : Matrix (Fin p) (Fin p) ℚ)
    (v : Fin p → ℚ) (w : Fin q → ℚ) : (Fin p → ℚ) × (Fin q → ℚ) :=
  let dy := Sinv.mulVec (v - E.mulVec (Cinv.mulVec w))
  let dz := Cinv.mulVec (w - E.transpose.mulVec dy)
  (dy, dz)

end Ceres

/-! ## Claim C5 -/

/-- C5: for every block system `[[B, E], [Eᵗ, C]] [Δy, Δz] = [v, w]` with
invertible `C` and invertible Schur complement `S = B − E C⁻¹ Eᵗ`: (1) the
matrix-free `schurtrick1` product computes exactly `S·x` for every vector
`x`, so the iterative path applies the same operator without materializing
`S`; (2) the explicit elimination-and-back-substitution path produces a
solution of the full block system; and (3) any reduced-system solution the
matrix-free path converges to equals the explicit path's `Δy` — in exact
arithmetic the two paths agree on the computed step. -/
theorem schur_explicit_and_matrix_free_agree (p q : ℕ)
    (B : Matrix (Fin p) (Fin p) ℚ) (E : Matrix (Fin p) (Fin q) ℚ)
    (C Cinv : Matrix (Fin q) (Fin q) ℚ) (Sinv : Matrix (Fin p) (Fin p) ℚ)
    (v : Fin p → ℚ) (w : Fin q → ℚ)
    (hC : C * Cinv = 1)
    (hS : Ceres.schurComplement B E Cinv * Sinv = 1)
    (hSinv : Sinv * Ceres.schurComplement B E Cinv = 1) :
    (∀ x : Fin p → ℚ,
      Ceres.schurTrickProduct B E Cinv x =
        (Ceres.schurComplement B E Cinv).mulVec x) ∧
    (B.mulVec (Ceres.schurEliminationSolve E Cinv Sinv v w).1 +
        E.mulVec (Ceres.schurEliminationSolve E Cinv Sinv v w).2 = v ∧
      E.transpose.mulVec (Ceres.schurEliminationSolve E Cinv Sinv v w).1 +
        C.mulVec (Ceres.schurEliminationSolve E Cinv Sinv v w).2 = w) ∧
    (∀ dy : Fin p → ℚ,
      Ceres.schurTrickProduct B E Cinv dy =
          v - E.mulVec (Cinv.mulVec w) →
        dy = (Ceres.schurEliminationSolve E Cinv Sinv v w).1) := by
  have htrick : ∀ x : Fin p → ℚ,
      Ceres.schurTrickProduct B E Cinv x =
        (Ceres.schurComplement B E Cinv).mulVec x := by
    intro x
    simp [Ceres.schurTrickProduct, Ceres.schurComplement, Matrix.sub_mulVec,
      Matrix.mulVec_mulVec, Matrix.mul_assoc]
  set dy := (Ceres.schurEliminationSolve E Cinv Sinv v w).1 with hdy
  set dz := (Ceres.schurEliminationSolve E Cinv Sinv v w).2 with hdz
  have hSdy : (Ceres.schurComplement B E Cinv).mulVec dy =
      v - E.mulVec (Cinv.mulVec w) := by
    rw [hdy]
    show (Ceres.schurComplement B E Cinv).mulVec
      (Sinv.mulVec (v - E.mulVec (Cinv.mulVec w))) = _
    rw [Matrix.mulVec_mulVec, hS, Matrix.one_mulVec]
  have hdz_expand : E.mulVec dz =
      E.mulVec (Cinv.mulVec w) - (E * Cinv * E.transpose).mulVec dy := by
    rw [hdz]
    show E.mulVec (Cinv.mulVec (w - E.transpose.mulVec dy)) = _
    rw [Matrix.mulVec_sub Cinv, Matrix.mulVec_sub E]
    simp [Matrix.mulVec_mulVec, Matrix.mul_assoc]
  refine ⟨htrick, ⟨?_, ?_⟩, ?_⟩
  · -- B Δy + E Δz = v
    have hsub : B.mulVec dy - (E * Cinv * E.transpose).mulVec dy =
        v - E.mulVec (Cinv.mulVec w) := by
      rw [← Matrix.sub_mulVec]
      exact hSdy
    rw [hdz_expand]
    have : B.mulVec dy + (E.mulVec (Cinv.mulVec w) -
        (E * Cinv * E.transpose).mulVec dy) =
        (B.mulVec dy - (E * Cinv * E.transpose).mulVec dy) +
          E.mulVec (Cinv.mulVec w) := by abel
    rw [this, hsub]
    abel
  · -- Eᵗ Δy + C Δz = w
    rw [hdz]
    show E.transpose.mulVec dy +
      C.mulVec (Cinv.mulVec (w - E.transpose.mulVec dy)) = w
    rw [Matrix.mulVec_mulVec, hC, Matrix.one_mulVec]
    abel
  · -- agreement of the two paths on Δy
    intro dy' hdy'
    have hSdy' : (Ceres.schurComplement B E Cinv).mulVec dy' =
        v - E.mulVec (Cinv.mulVec w) := by
      rw [← htrick dy']
      exact hdy'
    calc dy' = (1 : Matrix (Fin p) (Fin p) ℚ).mulVec dy' :=
        (Matrix.one_mulVec dy').symm
    _ = (Sinv * Ceres.schurComplement B E Cinv).mulVec dy' := by rw [hSinv]
    _ = Sinv.mulVec ((Ceres.schurComplement B E Cinv).mulVec dy') :=
        (Matrix.mulVec_mulVec dy' Sinv _).symm
    _ = Sinv.mulVec (v - E.mulVec (Cinv.mulVec w)) := by rw [hSdy']
    _ = dy := rfl

/-- C5 witness: the agreement theorem applied to the concrete one-camera,
one-point system `B = 1`, `E = 0`, `C = C⁻¹ = 1`, `v = 2`, `w = 3`: the
matrix-free product of the basis vector equals the explicit `S`-product. -/
theorem schur_explicit_and_matrix_free_agree_witness :
    Ceres.schurTrickProduct (1 : Matrix (Fin 1) (Fin 1) ℚ)
        (0 : Matrix (Fin 1) (Fin 1) ℚ) (1 : Matrix (Fin 1) (Fin 1) ℚ)
        (fun _ => 1) =
      (Ceres.schurComplement (1 : Matrix (Fin 1) (Fin 1) ℚ)
          (0 : Matrix (Fin 1) (Fin 1) ℚ)
          (1 : Matrix (Fin 1) (Fin 1) ℚ)).mulVec
        (fun _ => 1) := by
  have h := schur_explicit_and_matrix_free_agree 1 1 1 0 1 1 1
    (fun _ => 2) (fun _ => 3)
    (by simp)
    (by simp [Ceres.schurComplement])
    (by simp [Ceres.schurComplement])
  exact h.1 (fun _ => 1)

namespace Ceres

/-! ### Rank-deficient covariance (claim C8)

The covariance implementation is not part of the repository snapshot, but
its test (`covariance_test.cc`, `RankDeficientCovarianceTest`) is.  The
Jacobian, its normal matrix `JᵗJ` and the hand-computed `pinv(JᵗJ)` below
are transcribed from that test; the `DENSE_SVD` solve with null-space
truncation is modelled from the spec as the Moore–Penrose pseudo-inverse,
which in exact arithmetic is what dropping exactly the zero singular values
computes. -/

/-- The Jacobian of `RankDeficientCovarianceTest` (from the residual blocks
added in its `SetUp`): columns are x (2), y (3), z (1); the y rows are
identically zero. -/
def rankDeficientJacobian : Matrix (Fin 8) (Fin 6) ℤ :=
  !![1, 0, 0, 0, 0, 0;
     0, 1, 0, 0, 0, 0;
     0, 0, 0, 0, 0, 0;
     0, 0, 0, 0, 0, 0;
     0, 0, 0, 0, 0, 0;
     0, 0, 0, 0, 0, 5;
     -5, -6, 0, 0, 0, 0;
     3, -2, 0, 0, 0, 2]

/-- The normal matrix `JᵗJ` as written in the test's comment. -/
def rankDeficientJtJ : Matrix (Fin 6) (Fin 6) ℤ :=
  !![35, 24, 0, 0, 0, 6;
     24, 41, 0, 0, 0, -4;
     0, 0, 0, 0, 0, 0;
     0, 0, 0, 0, 0, 0;
     0, 0, 0, 0, 0, 0;
     6, -4, 0, 0, 0, 29]

/-- `21723 · pinv(JᵗJ)`: the adjugate of the invertible `(x, z)` block of
`JᵗJ` (whose determinant is `21723`), embedded at rows/columns 0, 1, 5. -/
def rankDeficientAdjugate : Matrix (Fin 6) (Fin 6) ℤ :=
  !![1173, -720, 0, 0, 0, -342;
     -720, 979, 0, 0, 0, 284;
     0, 0, 0, 0, 0, 0;
     0, 0, 0, 0, 0, 0;
     0, 0, 0, 0, 0, 0;
     -342, 284, 0, 0, 0, 859]

/-- The orthogonal projector onto the range of `JᵗJ` (coordinates 0, 1, 5). -/
def rankDeficientProjector : Matrix (Fin 6) (Fin 6) ℤ :=
  !![1, 0, 0, 0, 0, 0;
     0, 1, 0, 0, 0, 0;
     0, 0, 0, 0, 0, 0;
     0, 0, 0, 0, 0, 0;
     0, 0, 0, 0, 0, 0;
     0, 0, 0, 0, 0, 1]

/-- The rational normal matrix `JᵗJ`. -/
def rankDeficientJtJQ : Matrix (Fin 6) (Fin 6) ℚ :=
  rankDeficientJtJ.map (Int.cast)

/-- Modelled from the spec: the result of the `DENSE_SVD` covariance solve
with forced null-space truncation on this problem — in exact arithmetic the
Moore–Penrose pseudo-inverse of `JᵗJ`, namely `(1/21723) ·` the embedded
adjugate. -/
def rankDeficientPseudoInverse : Matrix (Fin 6) (Fin 6) ℚ :=
  ((1 : ℚ) / 21723) • rankDeficientAdjugate.map (Int.cast)

/-- The hand-computed `pinv(JᵗJ)` from the test (`expected_covariance`,
computed with Octave, six decimal digits). -/
def rankDeficientExpectedCovariance : Matrix (Fin 6) (Fin 6) ℚ :=
  !![53998/1000000, -33145/1000000, 0, 0, 0, -15744/1000000;
     -33145/1000000, 45067/1000000, 0, 0, 0, 13074/1000000;
     0, 0, 0, 0, 0, 0;
     0, 0, 0, 0, 0, 0;
     0, 0, 0, 0, 0, 0;
     -15744/1000000, 13074/1000000, 0, 0, 0, 39543/1000000]

end Ceres

/-! ## Claim C8 -/

/-- Helper: the cast `ℤ → ℚ` commutes with matrix multiplication. -/
theorem castQ_mul {a b c : ℕ} (X : Matrix (Fin a) (Fin b) ℤ)
    (Y : Matrix (Fin b) (Fin c) ℤ) :
    (X * Y).map (Int.cast : ℤ → ℚ) =
      X.map (Int.cast) * Y.map (Int.cast) := by
  ext i j
  simp [Matrix.mul_apply, Matrix.map_apply]

/-- Helper: the cast `ℤ → ℚ` commutes with integer scaling. -/
theorem castQ_smul {a b : ℕ} (r : ℤ) (X : Matrix (Fin a) (Fin b) ℤ) :
    ((r • X).map (Int.cast : ℤ → ℚ)) = (r : ℚ) • X.map (Int.cast) := by
  ext i j
  simp [Matrix.map_apply, Matrix.smul_apply]

/-- C8: for the rank-deficient covariance test system (Jacobian with a zero
row-block for `y`): the transcribed normal matrix is indeed `JᵗJ`; the
exact truncated solve `rankDeficientPseudoInverse` satisfies all four
Penrose equations for `JᵗJ`, so it is the Moore–Penrose pseudo-inverse of
`JᵗJ`; and it matches the test's hand-computed pseudo-inverse entry by
entry — hence on every requested covariance block — within `1e-4`
absolute tolerance. -/
theorem dense_svd_rank_deficient_covariance :
    (Ceres.rankDeficientJacobian.transpose * Ceres.rankDeficientJacobian =
      Ceres.rankDeficientJtJ) ∧
    (Ceres.rankDeficientJtJQ * Ceres.rankDeficientPseudoInverse *
        Ceres.rankDeficientJtJQ = Ceres.rankDeficientJtJQ) ∧
    (Ceres.rankDeficientPseudoInverse * Ceres.rankDeficientJtJQ *
        Ceres.rankDeficientPseudoInverse = Ceres.rankDeficientPseudoInverse) ∧
    ((Ceres.rankDeficientJtJQ * Ceres.rankDeficientPseudoInverse).transpose =
      Ceres.rankDeficientJtJQ * Ceres.rankDeficientPseudoInverse) ∧
    ((Ceres.rankDeficientPseudoInverse * Ceres.rankDeficientJtJQ).transpose =
      Ceres.rankDeficientPseudoInverse * Ceres.rankDeficientJtJQ) ∧
    (∀ i j, |Ceres.rankDeficientPseudoInverse i j -
        Ceres.rankDeficientExpectedCovariance i j| ≤ 1/10000) := by
  have hMA : Ceres.rankDeficientJtJ * Ceres.rankDeficientAdjugate =
      (21723 : ℤ) • Ceres.rankDeficientProjector := by decide
  have hAM : Ceres.rankDeficientAdjugate * Ceres.rankDeficientJtJ =
      (21723 : ℤ) • Ceres.rankDeficientProjector := by decide
  have hProjM : Ceres.rankDeficientProjector * Ceres.rankDeficientJtJ =
      Ceres.rankDeficientJtJ := by decide
  have hProjA : Ceres.rankDeficientProjector * Ceres.rankDeficientAdjugate =
      Ceres.rankDeficientAdjugate := by decide
  have hProjT : Ceres.rankDeficientProjector.transpose =
      Ceres.rankDeficientProjector := by decide
  set Mq := Ceres.rankDeficientJtJQ with hMq
  set Aq := Ceres.rankDeficientAdjugate.map (Int.cast : ℤ → ℚ) with hAq
  set Projq :=
    Ceres.rankDeficientProjector.map (Int.cast : ℤ → ℚ) with hProjq
  have hMAq : Mq * Aq = (21723 : ℚ) • Projq := by
    rw [hMq, Ceres.rankDeficientJtJQ, hAq, ← castQ_mul, hMA, castQ_smul]
    norm_num
  have hAMq : Aq * Mq = (21723 : ℚ) • Projq := by
    rw [hMq, Ceres.rankDeficientJtJQ, hAq, ← castQ_mul, hAM, castQ_smul]
    norm_num
  have hProjMq : Projq * Mq = Mq := by
    rw [hMq, Ceres.rankDeficientJtJQ, hProjq, ← castQ_mul, hProjM]
  have hProjAq : Projq * Aq = Aq := by
    rw [hProjq, hAq, ← castQ_mul, hProjA]
  have hProjTq : Projq.transpose = Projq := by
    rw [hProjq, ← Matrix.transpose_map, hProjT]
  have hP : Ceres.rankDeficientPseudoInverse = ((1 : ℚ) / 21723) • Aq := by
    rw [Ceres.rankDeficientPseudoInverse, hAq]
  have hMP : Mq * Ceres.rankDeficientPseudoInverse = Projq := by
    rw [hP, Matrix.mul_smul, hMAq, smul_smul]
    norm_num
  have hPM : Ceres.rankDeficientPseudoInverse * Mq = Projq := by
    rw [hP, Matrix.smul_mul, hAMq, smul_smul]
    norm_num
  refine ⟨by decide, ?_, ?_, ?_, ?_, ?_⟩
  · rw [hMP, hProjMq]
  · rw [hPM, hP, Matrix.mul_smul, hProjAq]
  · rw [hMP, hProjTq]
  · rw [hPM, hProjTq]
  · intro i j
    fin_cases i <;> fin_cases j <;>
      (rw [abs_le]; constructor <;>
        norm_num [Ceres.rankDeficientPseudoInverse,
          Ceres.rankDeficientExpectedCovariance, Ceres.rankDeficientAdjugate,
          Matrix.smul_apply, Matrix.map_apply])
